import Mathlib

/-!
Shallow embedding of the Antigravity BirdBridge account scheduler
(`AccountManager` in the account-manager module) and the request-side
helpers of `src/server.js` (`parseError`, `isBackgroundTask`, the
background-task model downgrade), together with theorems settling the
frozen claims about the repository.

Conventions of the embedding:
* JavaScript numbers holding timestamps / millisecond durations become `ℤ`;
  counters become `ℕ`; the floating-point health-score arithmetic becomes `ℚ`
  with `Math.round` modelled as `⌊q + 1/2⌋`.
* `Date.now()` is passed explicitly as a parameter `now : ℤ`; a single call
  of an operation is modelled at one instant.
* JS truthiness on numbers (`0` is falsy) and strings (`""` is falsy) is
  modelled explicitly wherever the source relies on it (`x || y`,
  `if (x)` guards).
* Fields the scheduler never reads (tokens, project ids, console output,
  best-effort `saveToDisk`) are omitted; `saveToDisk` does not change the
  in-memory pool state.
-/

namespace BirdBridge

/-- JS `x || y` on an optional integer: `undefined`/`null` and `0` are falsy. -/
def jsOrI (x : Option ℤ) (y : ℤ) : ℤ :=
  match x with
  | none => y
  | some v => if v = 0 then y else v

/-- JS `x || y` on an optional string: `undefined`/`null` and `""` are falsy. -/
def jsOrS (x : Option String) (y : String) : String :=
  match x with
  | none => y
  | some s => if s = "" then y else s

/-- `Math.round` on a rational: round half toward positive infinity. -/
def jsRound (q : ℚ) : ℤ := ⌊q + 1/2⌋

/-- `clampScore` from the account manager:
`Math.round(Math.max(-100, Math.min(120, value)))`. -/
def clampScore (q : ℚ) : ℤ := jsRound (max (-100) (min 120 q))

/-- `Math.ceil(w / 1000)` on an integer number of milliseconds
(`Int.ediv` by a positive divisor is floor division, so negating twice
gives the ceiling). -/
def jsCeilDiv1000 (w : ℤ) : ℤ := -(Int.ediv (-w) 1000)

/-- The `stats` record of an account (`hydrateStats` shape). -/
structure Stats where
  successCount : ℕ
  errorCount : ℕ
  lastSuccessAt : Option ℤ
  lastFailureAt : Option ℤ
deriving Repr, DecidableEq

/-- An account record as kept by `AccountManager`.  Credential material and
token caches are not read by the scheduling logic and are omitted. -/
structure Account where
  email : String
  isRateLimited : Bool
  rateLimitResetTime : Option ℤ
  isInvalid : Bool
  invalidReason : Option String
  invalidAt : Option ℤ
  lastUsed : Option ℤ
  stats : Stats
  healthScore : ℤ
  recommended : Bool
deriving Repr, DecidableEq

/-- The mutable state of `AccountManager` that the scheduler reads and
writes: the account list, `#currentIndex`, the time-window-lock anchor
(`#lastUsedAccount`, `#lastUsedTime`) and `settings.cooldownDurationMs`. -/
structure PoolState where
  accounts : List Account
  currentIndex : ℤ
  lastUsedAccount : Option String
  lastUsedTime : Option ℤ
  cooldownSetting : Option ℤ
deriving Repr, DecidableEq

/-- Modelled from the spec: `SHORT_WAIT_THRESHOLD_MS` lives in
`src/constants.js`, which is not part of the provided sources; the spec
gives its default of 10 seconds. -/
def SHORT_WAIT_THRESHOLD_MS : ℤ := 10000

/-- Modelled from the spec: `MAX_WAIT_BEFORE_ERROR_MS` lives in
`src/constants.js`, which is not part of the provided sources; the spec
gives its default of 60 seconds. -/
def MAX_WAIT_BEFORE_ERROR_MS : ℤ := 60000

/-- Modelled from the spec: `TIME_WINDOW_LOCK_MS` lives in
`src/constants.js`, which is not part of the provided sources; the spec
gives its default of 60 seconds.  -/
def TIME_WINDOW_LOCK_MS : ℤ := 60000

/-- `computeUsageRatio`: success and error ratios with the denominator
clamped to at least 1.  (Returned as the pair `(usage, error)`.) -/
def computeRatios (st : Stats) : ℚ × ℚ :=
  let total : ℚ := max ((st.successCount : ℚ) + (st.errorCount : ℚ)) 1
  ((st.successCount : ℚ) / total, (st.errorCount : ℚ) / total)

/-- `account.rateLimitResetTime ? account.rateLimitResetTime - nowMs() : 0`
(the reset time `0` is falsy in JS). -/
def remainingMsOf (now : ℤ) (a : Account) : ℤ :=
  match a.rateLimitResetTime with
  | none => 0
  | some t => if t = 0 then 0 else t - now

/-- `#computeHealthScore` from the account manager, with
`DEFAULT_COOLDOWN_MS` passed as the parameter `D`.  Note the cooldown
factor is `Math.max(0, 1 - Math.min(1, remainingMs / D))`: it is clamped
below at 0 but not above at 1. -/
def computeHealthScore (D now : ℤ) (a : Account) : ℤ :=
  let stateWeight : ℚ := if a.isInvalid then -50 else if a.isRateLimited then -20 else 30
  let ratios := computeRatios a.stats
  let remainingMs : ℚ := (remainingMsOf now a : ℚ)
  let cooldownFactor : ℚ :=
    if a.isRateLimited then max 0 (1 - min 1 (remainingMs / (D : ℚ))) else 1
  clampScore (stateWeight + (1 - ratios.1) * 30 + (1 - ratios.2) * 20 + cooldownFactor * 10)

/-- Modelled from the spec (for the refinement comparison of claim C3):
the health-score formula as the spec states it, with
`cooldownFactor = clamp(1 − min(1, remainingCooldown/DEFAULT_COOLDOWN), 0, 1)`
clamped on both sides. -/
def specHealthScore (D now : ℤ) (a : Account) : ℤ :=
  let stateWeight : ℚ := if a.isInvalid then -50 else if a.isRateLimited then -20 else 30
  let ratios := computeRatios a.stats
  let remainingMs : ℚ := (remainingMsOf now a : ℚ)
  let cooldownFactor : ℚ :=
    if a.isRateLimited then min 1 (max 0 (1 - min 1 (remainingMs / (D : ℚ)))) else 1
  clampScore (stateWeight + (1 - ratios.1) * 30 + (1 - ratios.2) * 20 + cooldownFactor * 10)

/-- An account is available iff it is neither rate-limited nor invalid
(`getAvailableAccounts` filter). -/
def availableB (a : Account) : Bool := !a.isRateLimited && !a.isInvalid

/-- The guard of `clearExpiredLimits` for one account:
`account.isRateLimited && account.rateLimitResetTime && account.rateLimitResetTime <= now`
(a reset time of `0` is falsy in JS). -/
def expiredLimit (now : ℤ) (a : Account) : Bool :=
  a.isRateLimited &&
    (match a.rateLimitResetTime with
     | some t => t != 0 && decide (t ≤ now)
     | none => false)

/-- The per-account effect of `clearExpiredLimits`: clear the flags and
recompute the health score from the cleared record. -/
def clearAccount (D now : ℤ) (a : Account) : Account :=
  if expiredLimit now a then
    let a1 := { a with isRateLimited := false, rateLimitResetTime := none }
    { a1 with healthScore := computeHealthScore D now a1 }
  else a

/-- The fold step of `#updateRecommendations` computing the top score:
`if (account.healthScore > topScore && !account.isInvalid) topScore = account.healthScore`
with `topScore` starting at `-Infinity` (modelled as `none`). -/
def updTop (t : Option ℤ) (a : Account) : Option ℤ :=
  if (match t with | none => true | some v => decide (v < a.healthScore)) && !a.isInvalid
  then some a.healthScore else t

/-- The `topScore` computed by `#updateRecommendations`. -/
def topScore (l : List Account) : Option ℤ := l.foldl updTop none

/-- The per-account assignment of `#updateRecommendations`:
`account.recommended = !account.isInvalid && account.healthScore === topScore && topScore > 0`
(a `topScore` of `-Infinity` compares equal to no finite score and is not `> 0`). -/
def recUpd (t : Option ℤ) (a : Account) : Account :=
  { a with recommended :=
      !a.isInvalid &&
        (match t with
         | some v => a.healthScore == v && decide (0 < v)
         | none => false) }

/-- `#updateRecommendations` over an account list. -/
def updateRecommendations (l : List Account) : List Account :=
  l.map (recUpd (topScore l))

/-- `clearExpiredLimits`: lazily expire cooldowns; when at least one limit
was cleared the recommendations are refreshed (the `saveToDisk` side effect
does not change the in-memory state). -/
def clearExpiredLimits (D now : ℤ) (s : PoolState) : PoolState :=
  let accounts1 := s.accounts.map (clearAccount D now)
  let accounts2 :=
    if 0 < s.accounts.countP (expiredLimit now) then updateRecommendations accounts1
    else accounts1
  { s with accounts := accounts2 }

/-- `this.#accounts.map((acc, idx) => ({acc, idx}))`, with the index first. -/
def withIdx (n : ℕ) : List Account → List (ℕ × Account)
  | [] => []
  | a :: as => (n, a) :: withIdx (n + 1) as

/-- The sort comparator of `pickNext` read as "y ranks strictly above b":
higher `healthScore` first, ties broken by later `lastSuccessAt`
(`null` read as `0` via `|| 0`). -/
def beatsIdx (b y : ℕ × Account) : Bool :=
  decide (b.2.healthScore < y.2.healthScore) ||
    (y.2.healthScore == b.2.healthScore &&
      decide ((b.2.stats.lastSuccessAt.getD 0) < (y.2.stats.lastSuccessAt.getD 0)))

/-- `pickNext`: clear expired limits, take the head of the available
accounts sorted by `(healthScore desc, lastSuccessAt desc)` (a stable sort,
so the head is the leftmost maximal element, computed here by a fold),
set `#currentIndex` to its position and stamp `lastUsed = now`. -/
def pickNext (D now : ℤ) (s : PoolState) : Option Account × PoolState :=
  let s1 := clearExpiredLimits D now s
  if s1.accounts.countP availableB = 0 then (none, s1)
  else
    match (withIdx 0 s1.accounts).filter (fun p => availableB p.2) with
    | [] => (none, s1)
    | h :: t =>
      let best := t.foldl (fun b y => if beatsIdx b y then y else b) h
      let a1 := { best.2 with lastUsed := some now }
      (some a1,
       { s1 with accounts := s1.accounts.set best.1 a1, currentIndex := (best.1 : ℤ) })

/-- `this.#accounts[i]` for a possibly negative JS index: a negative or
out-of-range index yields `undefined`. -/
def getAt (l : List Account) (i : ℤ) : Option Account :=
  if i < 0 then none else l.get? i.toNat

/-- `getCurrentStickyAccount`: clear expired limits, clamp an index `≥`
the length to 0, and return the account at `#currentIndex` (stamping
`lastUsed = now`) when it is available. -/
def getCurrentStickyAccount (D now : ℤ) (s : PoolState) : Option Account × PoolState :=
  let s1 := clearExpiredLimits D now s
  if s1.accounts.length = 0 then (none, s1)
  else
    let s2 := if (s1.accounts.length : ℤ) ≤ s1.currentIndex then { s1 with currentIndex := 0 } else s1
    match getAt s2.accounts s2.currentIndex with
    | none => (none, s2)
    | some a =>
      if availableB a then
        let a1 := { a with lastUsed := some now }
        (some a1, { s2 with accounts := s2.accounts.set s2.currentIndex.toNat a1 })
      else (none, s2)

/-- The result record of `shouldWaitForCurrentAccount`. -/
structure WaitInfo where
  shouldWait : Bool
  waitMs : ℤ
  account : Option Account
  shouldSwitch : Bool
deriving Repr, DecidableEq

/-- `shouldWaitForCurrentAccount`: the wait-versus-switch decision for the
account at `#currentIndex` (which the method may clamp to 0). -/
def shouldWaitForCurrentAccount (now : ℤ) (s : PoolState) : WaitInfo × PoolState :=
  if s.accounts.length = 0 then (⟨false, 0, none, false⟩, s)
  else
    let s2 := if (s.accounts.length : ℤ) ≤ s.currentIndex then { s with currentIndex := 0 } else s
    match getAt s2.accounts s2.currentIndex with
    | none => (⟨false, 0, none, false⟩, s2)
    | some a =>
      if a.isInvalid then (⟨false, 0, none, false⟩, s2)
      else if a.isRateLimited &&
          (match a.rateLimitResetTime with | some t => t != 0 | none => false) then
        let waitMs := a.rateLimitResetTime.getD 0 - now
        if waitMs ≤ 0 then (⟨false, 0, some a, false⟩, s2)
        else if waitMs ≤ SHORT_WAIT_THRESHOLD_MS then (⟨true, waitMs, some a, false⟩, s2)
        else if waitMs ≤ MAX_WAIT_BEFORE_ERROR_MS then
          if 0 < (s2.accounts.filter availableB).length then (⟨false, waitMs, some a, true⟩, s2)
          else (⟨true, waitMs, some a, false⟩, s2)
        else (⟨false, waitMs, some a, false⟩, s2)
      else (⟨false, 0, some a, false⟩, s2)

/-- The result of `pickStickyAccount`: `{account, waitMs}`. -/
structure PickResult where
  account : Option Account
  waitMs : ℤ
deriving Repr, DecidableEq

/-- The truthiness guard on the affinity-lock anchor:
`this.#lastUsedAccount && this.#lastUsedTime` with the 60-second window
test `now - lastUsedTime < TIME_WINDOW_LOCK_MS`. -/
def lockApplies (now : ℤ) (s : PoolState) : Bool :=
  match s.lastUsedAccount, s.lastUsedTime with
  | some e, some t => e != "" && t != 0 && decide (now - t < TIME_WINDOW_LOCK_MS)
  | _, _ => false

/-- The shared tail of `pickStickyAccount` that switches via `pickNext`
and, when an account was obtained, records it as the affinity anchor. -/
def switchViaPickNext (D now : ℤ) (s : PoolState) : PickResult × PoolState :=
  let r := pickNext D now s
  match r.1 with
  | some a => (⟨some a, 0⟩, { r.2 with lastUsedAccount := some a.email, lastUsedTime := some now })
  | none => (⟨none, 0⟩, r.2)

/-- The affinity-lock step of `pickStickyAccount` (Rule 1): `none` means
the step falls through to the sticky/current logic. -/
def lockStep (now : ℤ) (s : PoolState) : Option (PickResult × PoolState) :=
  if lockApplies now s then
    match s.accounts.findIdx? (fun a => a.email == (s.lastUsedAccount.getD "")) with
    | none => none
    | some i =>
      match s.accounts.get? i with
      | none => none
      | some la =>
        if availableB la then
          let la1 := { la with lastUsed := some now }
          some (⟨some la1, 0⟩,
                { s with accounts := s.accounts.set i la1, lastUsedTime := some now })
        else if la.isRateLimited &&
            (match la.rateLimitResetTime with | some t => t != 0 | none => false) then
          let waitMs := la.rateLimitResetTime.getD 0 - now
          if 0 < waitMs ∧ waitMs ≤ SHORT_WAIT_THRESHOLD_MS then some (⟨none, waitMs⟩, s)
          else none
        else none
  else none

/-- `pickStickyAccount`: affinity lock, then the sticky current account,
then the wait-versus-switch decision, then `pickNext`. -/
def pickStickyAccount (D now : ℤ) (s : PoolState) : PickResult × PoolState :=
  match lockStep now s with
  | some r => r
  | none =>
    let sticky := getCurrentStickyAccount D now s
    match sticky.1 with
    | some a =>
      (⟨some a, 0⟩, { sticky.2 with lastUsedAccount := some a.email, lastUsedTime := some now })
    | none =>
      let wi := shouldWaitForCurrentAccount now sticky.2
      if wi.1.shouldSwitch then switchViaPickNext D now wi.2
      else if wi.1.shouldWait then (⟨none, wi.1.waitMs⟩, wi.2)
      else switchViaPickNext D now wi.2

/-- `resetAllRateLimits`: blindly clear `isRateLimited` and
`rateLimitResetTime` on every account, then refresh recommendations.
Note that the stored `healthScore` is not recomputed here. -/
def resetAllRateLimits (s : PoolState) : PoolState :=
  let cleared := s.accounts.map (fun a => { a with isRateLimited := false, rateLimitResetTime := none })
  { s with accounts := updateRecommendations cleared }

/-- `markRateLimited(email, resetMs)`: flag the account, set the reset
time from `resetMs || settings.cooldownDurationMs || DEFAULT_COOLDOWN_MS`,
bump the error stats and rescore. -/
def markRateLimited (D now : ℤ) (email : String) (resetMs : Option ℤ) (s : PoolState) : PoolState :=
  match s.accounts.findIdx? (fun a => a.email == email) with
  | none => s
  | some i =>
    match s.accounts.get? i with
    | none => s
    | some a =>
      let cooldownMs := jsOrI resetMs (jsOrI s.cooldownSetting D)
      let a1 := { a with
        isRateLimited := true
        rateLimitResetTime := some (now + cooldownMs)
        stats := { a.stats with errorCount := a.stats.errorCount + 1, lastFailureAt := some now } }
      let a2 := { a1 with healthScore := computeHealthScore D now a1 }
      { s with accounts := updateRecommendations (s.accounts.set i a2) }

/-- `markInvalid(email, reason)`: flag the account invalid, record the
reason and time, and rescore. -/
def markInvalid (D now : ℤ) (email reason : String) (s : PoolState) : PoolState :=
  match s.accounts.findIdx? (fun a => a.email == email) with
  | none => s
  | some i =>
    match s.accounts.get? i with
    | none => s
    | some a =>
      let a1 := { a with isInvalid := true, invalidReason := some reason, invalidAt := some now }
      let a2 := { a1 with healthScore := computeHealthScore D now a1 }
      { s with accounts := updateRecommendations (s.accounts.set i a2) }

/-- `recordSuccess(email)`: bump the success stats, clear the rate-limit
and invalid flags, and rescore. -/
def recordSuccess (D now : ℤ) (email : String) (s : PoolState) : PoolState :=
  match s.accounts.findIdx? (fun a => a.email == email) with
  | none => s
  | some i =>
    match s.accounts.get? i with
    | none => s
    | some a =>
      let a1 := { a with
        stats := { a.stats with successCount := a.stats.successCount + 1, lastSuccessAt := some now }
        lastUsed := some now
        isRateLimited := false
        rateLimitResetTime := none
        isInvalid := false }
      let a2 := { a1 with healthScore := computeHealthScore D now a1 }
      { s with accounts := updateRecommendations (s.accounts.set i a2) }

/-- `recordFailure(email, details)`: bump the error stats, then
conditionally invalidate (`details.invalidate` truthy) and conditionally
rate-limit (`typeof details.rateLimitMs === 'number'`), and rescore. -/
def recordFailure (D now : ℤ) (email : String) (invalidate : Option String)
    (rateLimitMs : Option ℤ) (s : PoolState) : PoolState :=
  match s.accounts.findIdx? (fun a => a.email == email) with
  | none => s
  | some i =>
    match s.accounts.get? i with
    | none => s
    | some a =>
      let a1 := { a with
        stats := { a.stats with errorCount := a.stats.errorCount + 1, lastFailureAt := some now } }
      let a2 := if (invalidate.getD "") != "" then
          { a1 with isInvalid := true, invalidReason := invalidate }
        else a1
      let a3 := match rateLimitMs with
        | some ms => { a2 with isRateLimited := true, rateLimitResetTime := some (now + ms) }
        | none => a2
      let a4 := { a3 with healthScore := computeHealthScore D now a3 }
      { s with accounts := updateRecommendations (s.accounts.set i a4) }

/-- The `#currentIndex` computed by `initialize` from the persisted
document: `config.activeIndex || 0`, then reset to 0 when it is `≥` the
number of loaded accounts. -/
def initCurrentIndex (activeIndex : Option ℤ) (numAccounts : ℕ) : ℤ :=
  let i := jsOrI activeIndex 0
  if (numAccounts : ℤ) ≤ i then 0 else i

/-- `pat.leadsWith text`: the pattern is an initial segment of the text
(character-exact; both sides are pre-lowercased where JS uses `/i`). -/
def leadsWith : List Char → List Char → Bool
  | [], _ => true
  | _ :: _, [] => false
  | c :: cs, d :: ds => c == d && leadsWith cs ds

/-- `text.includes(pat)` as a scan over the character list. -/
def occursIn (pat : List Char) : List Char → Bool
  | [] => leadsWith pat []
  | c :: ds => leadsWith pat (c :: ds) || occursIn pat ds

/-- `hay.includes(needle)` on strings (case-sensitive, as JS `includes`). -/
def containsSub (needle hay : String) : Bool := occursIn needle.toList hay.toList

/-- `parseInt` on a non-empty run of decimal digits. -/
def digitsVal (ds : List Char) : ℕ :=
  ds.foldl (fun n c => n * 10 + (c.toNat - 48)) 0

/-- The literal of the first alternative of the reset-time regex, in
lowercase (the regex carries the `/i` flag and the scan runs on the
lowercased message). -/
def resetLit : List Char := "quota will reset after ".toList

/-- The mandatory `(\d+)m(\d+)s` tail of the first regex alternative,
with `h` the value of the optional hour group (`parseInt(m[2] || '0')`).
A maximal digit run followed by a fixed letter never needs backtracking
inside the run, so greedy matching is exact. -/
def matchCore (r : List Char) (h : ℕ) : Option (ℕ × ℕ × ℕ) :=
  match r.span Char.isDigit with
  | (mds, r1) =>
    match mds, r1 with
    | _ :: _, 'm' :: r2 =>
      (match r2.span Char.isDigit with
       | (sds, r3) =>
         match sds, r3 with
         | _ :: _, 's' :: _ => some (h, digitsVal mds, digitsVal sds)
         | _, _ => none)
    | _, _ => none

/-- The first alternative `quota will reset after ((\d+)h)?(\d+)m(\d+)s`
tried at the head of `l`: match the literal, then try the optional hour
group greedily, backtracking to the group being absent when the rest of
the pattern fails after it. -/
def matchAlt1 (l : List Char) : Option (ℕ × ℕ × ℕ) :=
  if leadsWith resetLit l then
    let rest := l.drop resetLit.length
    match rest.span Char.isDigit with
    | (hds, r1) =>
      match hds, r1 with
      | _ :: _, 'h' :: r2 =>
        (match matchCore r2 (digitsVal hds) with
         | some v => some v
         | none => matchCore rest 0)
      | _, _ => matchCore rest 0
  else none

/-- The second alternative `(\d+)s` tried at the head of `l`. -/
def matchAlt2 (l : List Char) : Option ℕ :=
  match l.span Char.isDigit with
  | (ds, r) =>
    match ds, r with
    | _ :: _, 's' :: _ => some (digitsVal ds)
    | _, _ => none

/-- Leftmost-first matching of
`/quota will reset after ((\d+)h)?(\d+)m(\d+)s|(\d+)s/i` on the lowercased
message: at each position the left alternative is tried before the right
one, and the scan advances one character on failure.  Returns the
`(hours, minutes, seconds)` read off the groups as `parseError` does
(`parseInt(m[2]||'0')`, `parseInt(m[3]||'0')`, `parseInt(m[4]||m[5]||'0')`). -/
def scanReset : List Char → Option (ℕ × ℕ × ℕ)
  | [] => none
  | c :: rest =>
    match matchAlt1 (c :: rest) with
    | some v => some v
    | none =>
      match matchAlt2 (c :: rest) with
      | some s => some (0, 0, s)
      | none => scanReset rest

/-- The closed error taxonomy of `parseError`. -/
inductive ErrType where
  | authError
  | overloadedError
  | invalidRequestError
  | permissionError
  | apiError
deriving Repr, DecidableEq

/-- `parseError(error, accountManager)` restricted to the fields the spec
talks about: `(errorType, statusCode, retryAfterSeconds)`.
`allRateLimited` stands for `accountManager && accountManager.isAllRateLimited()`
(false when no manager is passed) and `minWaitMs` for
`accountManager.getMinWaitTimeMs()`. -/
def parseErrorModel (msg : String) (allRateLimited : Bool) (minWaitMs : ℤ) :
    ErrType × ℤ × Option ℤ :=
  if containsSub "401" msg || containsSub "UNAUTHENTICATED" msg then
    (.authError, 401, none)
  else if containsSub "429" msg || containsSub "RESOURCE_EXHAUSTED" msg ||
      containsSub "QUOTA_EXHAUSTED" msg then
    match scanReset (msg.toList.map Char.toLower) with
    | some (h, m, sec) => (.overloadedError, 503, some ((h : ℤ) * 3600 + (m : ℤ) * 60 + (sec : ℤ)))
    | none =>
      if allRateLimited then (.overloadedError, 503, some (jsCeilDiv1000 minWaitMs))
      else (.overloadedError, 503, some 60)
  else if containsSub "invalid_request_error" msg || containsSub "INVALID_ARGUMENT" msg then
    (.invalidRequestError, 400, none)
  else if containsSub "All endpoints failed" msg then
    (.apiError, 503, none)
  else if containsSub "PERMISSION_DENIED" msg then
    (.permissionError, 403, none)
  else
    (.apiError, 500, none)

/-- Lowercase a string character by character (`String.toLowerCase` on
the ASCII content the classifier handles). -/
def lowerS (s : String) : String := String.mk (s.toList.map Char.toLower)

/-- The `content` of one request message: a plain string or an array of
blocks, of which `isBackgroundTask` reads only the `text` field. -/
inductive MsgContent where
  | str (s : String)
  | blocks (texts : List (Option String))
deriving Repr, DecidableEq

/-- One entry of a `system` array: a plain string or an object with an
optional `text` field. -/
inductive SysEntry where
  | str (s : String)
  | obj (text : Option String)
deriving Repr, DecidableEq

/-- The `system` prompt: absent/falsy, a string, or an array of entries. -/
inductive SysVal where
  | absent
  | str (s : String)
  | arr (entries : List SysEntry)
deriving Repr, DecidableEq

/-- The lowercased fragments `isBackgroundTask` collects from the system
prompt (`if (system)` makes the empty string contribute nothing; a string
entry of an array is pushed unconditionally, an object entry only when its
`text` is truthy). -/
def sysParts : SysVal → List String
  | .absent => []
  | .str s => if s = "" then [] else [lowerS s]
  | .arr es =>
    es.flatMap (fun e =>
      match e with
      | .str s => [lowerS s]
      | .obj t =>
        match t with
        | some txt => if txt = "" then [] else [lowerS txt]
        | none => [])

/-- The lowercased fragments `isBackgroundTask` collects from the first
three messages (a string content is pushed unconditionally, a block only
when its `text` is truthy). -/
def msgParts (messages : List MsgContent) : List String :=
  (messages.take 3).flatMap (fun m =>
    match m with
    | .str s => [lowerS s]
    | .blocks ts =>
      ts.flatMap (fun t =>
        match t with
        | some txt => if txt = "" then [] else [lowerS txt]
        | none => []))

/-- `isBackgroundTask(messages, system)`: join all collected fragments
with spaces and test whether any background-task pattern occurs in the
combined text. -/
def isBackgroundTask (patterns : List String) (messages : List MsgContent)
    (system : SysVal) : Bool :=
  let combined := String.intercalate " " (sysParts system ++ msgParts messages)
  patterns.any (fun p => containsSub (lowerS p) combined)

/-- `canDowngrade` from the `/v1/messages` handler:
`(!tools || tools.length === 0) && !thinking && isSupportedModel(FREE_MODEL_FOR_BACKGROUND)`.
Tools are abstracted to their count-relevant list; `thinking` to its
truthiness; `freeSupported` to the `isSupportedModel` test. -/
def canDowngrade (tools : Option (List String)) (thinking : Bool) (freeSupported : Bool) : Bool :=
  (match tools with | none => true | some ts => ts.isEmpty) && !thinking && freeSupported

/-- The effective model of the `/v1/messages` handler:
`model || 'claude-3-5-sonnet-20241022'`, rewritten to
`FREE_MODEL_FOR_BACKGROUND` exactly when `canDowngrade` holds and the
request classifies as a background task. -/
def effectiveModel (freeModel : String) (freeSupported : Bool) (patterns : List String)
    (model : Option String) (tools : Option (List String)) (thinking : Bool)
    (messages : List MsgContent) (system : SysVal) : String :=
  let em := jsOrS model "claude-3-5-sonnet-20241022"
  if canDowngrade tools thinking freeSupported && isBackgroundTask patterns messages system
  then freeModel else em

/-- A fresh available account with the given email and stored score, used
to build the concrete pool states below. -/
def mkAccount (em : String) (score : ℤ) : Account :=
  { email := em, isRateLimited := false, rateLimitResetTime := none,
    isInvalid := false, invalidReason := none, invalidAt := none, lastUsed := none,
    stats := ⟨0, 0, none, none⟩, healthScore := score, recommended := false }

/-- A rate-limited account whose recorded reset time lies far in the past
(reachable, e.g., by hydrating a stale persisted document at boot, where
`initialize` rescores before `clearExpiredLimits` runs). -/
def staleLimited : Account :=
  { mkAccount "stale@example.com" 30 with
      isRateLimited := true, rateLimitResetTime := some (-600000) }

/-- A pool with a single account rate-limited until t = 60000, its stored
score consistent at `now = 0` with `DEFAULT_COOLDOWN_MS = 60000`. -/
def limitedPool : PoolState :=
  { accounts := [{ mkAccount "a@example.com" 30 with
        isRateLimited := true, rateLimitResetTime := some 60000 }],
    currentIndex := 0, lastUsedAccount := none, lastUsedTime := none, cooldownSetting := none }

/-- A pool with one available account, used to exercise the sticky path. -/
def onePool : PoolState :=
  { accounts := [mkAccount "a@example.com" 30],
    currentIndex := 0, lastUsedAccount := none, lastUsedTime := none, cooldownSetting := none }

/-- A pool whose current account is rate-limited for 30 s while two other
accounts are available, used to exercise the wait-versus-switch path. -/
def switchPool : PoolState :=
  { accounts :=
      [{ mkAccount "a@example.com" 30 with isRateLimited := true, rateLimitResetTime := some 30000 },
       mkAccount "b@example.com" 50,
       mkAccount "c@example.com" 40],
    currentIndex := 0, lastUsedAccount := none, lastUsedTime := none, cooldownSetting := none }

/-! ## Helper lemmas -/

theorem foldl_pick_mem {α : Type} (f : α → α → Bool) :
    ∀ (l : List α) (b : α), l.foldl (fun x y => if f x y then y else x) b ∈ b :: l := by
  intro l
  induction l with
  | nil => intro b; simp
  | cons c cs ih =>
    intro b
    simp only [List.foldl_cons]
    rcases List.mem_cons.1 (ih (if f b c then c else b)) with h | h
    · rw [h]
      by_cases hf : f b c
      · simp [hf]
      · simp [hf]
    · simp [List.mem_cons, h]

theorem withIdx_mem {j : ℕ} {a : Account} :
    ∀ {l : List Account} {n : ℕ}, (j, a) ∈ withIdx n l → n ≤ j ∧ l.get? (j - n) = some a := by
  intro l
  induction l with
  | nil => intro n h; simp [withIdx] at h
  | cons c cs ih =>
    intro n h
    simp only [withIdx, List.mem_cons] at h
    rcases h with h | h
    · obtain ⟨h1, h2⟩ := Prod.mk.injEq .. ▸ h
      cases h1; cases h2
      simp
    · obtain ⟨h1, h2⟩ := ih h
      refine ⟨by omega, ?_⟩
      have hj : j - n = (j - (n + 1)) + 1 := by omega
      rw [hj]
      simpa using h2

theorem withIdx_filter_nil {p : Account → Bool} :
    ∀ {l : List Account} {n : ℕ},
      (withIdx n l).filter (fun q => p q.2) = [] → l.countP p = 0 := by
  intro l
  induction l with
  | nil => intro n _; simp
  | cons c cs ih =>
    intro n h
    simp only [withIdx, List.filter_cons] at h
    by_cases hc : p c
    · simp [hc] at h
    · simp only [hc, if_neg] at h
      simp only [List.countP_cons, hc, if_neg]
      simp [ih (n := n + 1) (by simpa using h), hc]

theorem clearAccount_email (D now : ℤ) (a : Account) :
    (clearAccount D now a).email = a.email := by
  unfold clearAccount
  split <;> rfl

theorem clearAccount_notExpired {now : ℤ} (D : ℤ) {a : Account}
    (h : expiredLimit now a = false) : clearAccount D now a = a := by
  unfold clearAccount
  simp [h]

theorem availableB_expiredLimit {a : Account} (h : availableB a = true) (now : ℤ) :
    expiredLimit now a = false := by
  unfold availableB at h
  unfold expiredLimit
  simp only [Bool.and_eq_true, Bool.not_eq_true'] at h
  simp [h.1]

theorem clearAccount_avail {now D : ℤ} {a : Account} (h : availableB a = true) :
    clearAccount D now a = a :=
  clearAccount_notExpired D (availableB_expiredLimit h now)

theorem recUpd_email (t : Option ℤ) (a : Account) : (recUpd t a).email = a.email := rfl

theorem recUpd_isRateLimited (t : Option ℤ) (a : Account) :
    (recUpd t a).isRateLimited = a.isRateLimited := rfl

theorem recUpd_isInvalid (t : Option ℤ) (a : Account) :
    (recUpd t a).isInvalid = a.isInvalid := rfl

theorem recUpd_reset (t : Option ℤ) (a : Account) :
    (recUpd t a).rateLimitResetTime = a.rateLimitResetTime := rfl

theorem recUpd_healthScore (t : Option ℤ) (a : Account) :
    (recUpd t a).healthScore = a.healthScore := rfl

theorem recUpd_avail (t : Option ℤ) (a : Account) :
    availableB (recUpd t a) = availableB a := rfl

/-- The account list after `clearExpiredLimits` is a pointwise image of
the input list under a function that preserves every field the scheduler
branches on except the cleared rate-limit flags. -/
theorem clearEx_shape (D now : ℤ) (s : PoolState) :
    ∃ g : Account → Account,
      (clearExpiredLimits D now s).accounts = s.accounts.map (fun a => g (clearAccount D now a)) ∧
      ∀ a, (g a).email = a.email ∧ (g a).isRateLimited = a.isRateLimited ∧
        (g a).rateLimitResetTime = a.rateLimitResetTime ∧ (g a).isInvalid = a.isInvalid ∧
        (g a).healthScore = a.healthScore ∧ availableB (g a) = availableB a := by
  unfold clearExpiredLimits
  by_cases hc : 0 < s.accounts.countP (expiredLimit now)
  · refine ⟨recUpd (topScore (s.accounts.map (clearAccount D now))), ?_, ?_⟩
    · simp only [hc, if_pos]
      unfold updateRecommendations
      simp [List.map_map, Function.comp]
    · intro a
      exact ⟨rfl, rfl, rfl, rfl, rfl, rfl⟩
  · refine ⟨id, ?_, ?_⟩
    · simp only [hc, if_neg]
      simp
    · intro a
      exact ⟨rfl, rfl, rfl, rfl, rfl, rfl⟩

theorem clearEx_currentIndex (D now : ℤ) (s : PoolState) :
    (clearExpiredLimits D now s).currentIndex = s.currentIndex := by
  unfold clearExpiredLimits
  rfl

theorem clearEx_lastUsedAccount (D now : ℤ) (s : PoolState) :
    (clearExpiredLimits D now s).lastUsedAccount = s.lastUsedAccount := by
  unfold clearExpiredLimits
  rfl

theorem clearEx_lastUsedTime (D now : ℤ) (s : PoolState) :
    (clearExpiredLimits D now s).lastUsedTime = s.lastUsedTime := by
  unfold clearExpiredLimits
  rfl

theorem clearEx_length (D now : ℤ) (s : PoolState) :
    (clearExpiredLimits D now s).accounts.length = s.accounts.length := by
  obtain ⟨g, hg, -⟩ := clearEx_shape D now s
  simp [hg]

theorem clearEx_countP_avail (D now : ℤ) (s : PoolState) :
    s.accounts.countP availableB ≤ (clearExpiredLimits D now s).accounts.countP availableB := by
  obtain ⟨g, hg, hfields⟩ := clearEx_shape D now s
  rw [hg, List.countP_map]
  refine List.countP_mono_left ?_
  intro a _ ha
  have h1 : clearAccount D now a = a := clearAccount_avail ha
  simp only [Function.comp]
  rw [h1, (hfields a).2.2.2.2.2]
  exact ha

theorem clearEx_keepCurrent {D now : ℤ} {s : PoolState} {i : ℕ} {a : Account} {r : ℤ}
    (hget : s.accounts.get? i = some a) (hrl : a.isRateLimited = true)
    (hreset : a.rateLimitResetTime = some r) (hfut : now < r) :
    ∃ a', (clearExpiredLimits D now s).accounts.get? i = some a' ∧
      a'.isRateLimited = true ∧ a'.rateLimitResetTime = some r ∧
      a'.isInvalid = a.isInvalid ∧ a'.email = a.email := by
  obtain ⟨g, hg, hfields⟩ := clearEx_shape D now s
  have hexp : expiredLimit now a = false := by
    unfold expiredLimit
    rw [hrl, hreset]
    by_cases hr0 : r = 0
    · simp [hr0]
    · simp only [Bool.true_and]
      have : decide (r ≤ now) = false := by simp; omega
      simp [this]
  have hclear : clearAccount D now a = a := clearAccount_notExpired D hexp
  refine ⟨g (clearAccount D now a), ?_, ?_, ?_, ?_, ?_⟩
  · rw [hg, List.get?_map, hget]; rfl
  · rw [hclear, (hfields a).2.1, hrl]
  · rw [hclear, (hfields a).2.2.1, hreset]
  · rw [hclear, (hfields a).2.2.2.1]
  · rw [hclear, (hfields a).1]

theorem clearEx_emailMap (D now : ℤ) (s : PoolState) :
    (clearExpiredLimits D now s).accounts.map (fun a => a.email)
      = s.accounts.map (fun a => a.email) := by
  obtain ⟨g, hg, hfields⟩ := clearEx_shape D now s
  rw [hg, List.map_map]
  refine List.map_congr_left ?_
  intro a _
  simp only [Function.comp]
  rw [(hfields _).1, clearAccount_email]

theorem avail_lastUsed (a : Account) (v : Option ℤ) :
    availableB { a with lastUsed := v } = availableB a := rfl

/-- When at least one account is available after lazy expiry, `pickNext`
returns the fold-selected best available account: it stamps `lastUsed`,
moves `#currentIndex` to its position and leaves everything else of the
cleared state unchanged. -/
theorem pickNext_spec (D now : ℤ) (s : PoolState)
    (h : 0 < (clearExpiredLimits D now s).accounts.countP availableB) :
    ∃ i a0,
      (clearExpiredLimits D now s).accounts.get? i = some a0 ∧ availableB a0 = true ∧
      i < (clearExpiredLimits D now s).accounts.length ∧
      pickNext D now s =
        (some { a0 with lastUsed := some now },
         { clearExpiredLimits D now s with
             accounts := (clearExpiredLimits D now s).accounts.set i { a0 with lastUsed := some now },
             currentIndex := (i : ℤ) }) := by
  have hne : ¬((clearExpiredLimits D now s).accounts.countP availableB = 0) := by omega
  unfold pickNext
  rw [if_neg hne]
  cases hfil : (withIdx 0 (clearExpiredLimits D now s).accounts).filter (fun p => availableB p.2) with
  | nil =>
    exact absurd (withIdx_filter_nil hfil) (by omega)
  | cons hh tt =>
    set best := tt.foldl (fun b y => if beatsIdx b y then y else b) hh with hbest
    have hmem : best ∈ hh :: tt := foldl_pick_mem beatsIdx tt hh
    rw [← hfil] at hmem
    obtain ⟨hmemIdx, hav⟩ := List.mem_filter.1 hmem
    obtain ⟨-, hget⟩ := withIdx_mem hmemIdx
    simp only [Nat.sub_zero] at hget
    refine ⟨best.1, best.2, hget, hav, ?_, rfl⟩
    exact (List.get?_eq_some.1 hget).1

theorem pickNext_some_avail {D now : ℤ} {s : PoolState} {a : Account}
    (h : (pickNext D now s).1 = some a) :
    a.isRateLimited = false ∧ a.isInvalid = false := by
  unfold pickNext at h
  by_cases hz : (clearExpiredLimits D now s).accounts.countP availableB = 0
  · rw [if_pos hz] at h
    simp at h
  · rw [if_neg hz] at h
    cases hfil : (withIdx 0 (clearExpiredLimits D now s).accounts).filter (fun p => availableB p.2) with
    | nil =>
      rw [hfil] at h
      simp at h
    | cons hh tt =>
      rw [hfil] at h
      simp only at h
      set best := tt.foldl (fun b y => if beatsIdx b y then y else b) hh with hbest
      have hmem : best ∈ hh :: tt := foldl_pick_mem beatsIdx tt hh
      rw [← hfil] at hmem
      obtain ⟨-, hav⟩ := List.mem_filter.1 hmem
      have ha : a = { best.2 with lastUsed := some now } := by
        exact (Option.some.injEq .. ▸ h.symm)
      have : availableB a = true := by
        rw [ha, avail_lastUsed]
        exact hav
      unfold availableB at this
      simp only [Bool.and_eq_true, Bool.not_eq_true'] at this
      exact this

theorem gcs_some_avail {D now : ℤ} {s : PoolState} {a : Account}
    (h : (getCurrentStickyAccount D now s).1 = some a) :
    a.isRateLimited = false ∧ a.isInvalid = false := by
  unfold getCurrentStickyAccount at h
  by_cases hz : (clearExpiredLimits D now s).accounts.length = 0
  · rw [if_pos hz] at h
    simp at h
  · rw [if_neg hz] at h
    simp only at h
    set s2 := if ((clearExpiredLimits D now s).accounts.length : ℤ) ≤ (clearExpiredLimits D now s).currentIndex
      then { clearExpiredLimits D now s with currentIndex := 0 } else clearExpiredLimits D now s with hs2
    cases hga : getAt s2.accounts s2.currentIndex with
    | none => rw [hga] at h; simp at h
    | some b =>
      rw [hga] at h
      simp only at h
      by_cases hav : availableB b
      · rw [if_pos hav] at h
        simp only [Option.some.injEq] at h
        have : availableB a = true := by
          rw [← h, avail_lastUsed]
          exact hav
        unfold availableB at this
        simp only [Bool.and_eq_true, Bool.not_eq_true'] at this
        exact this
      · rw [if_neg hav] at h
        simp at h

theorem lockStep_some_avail {now : ℤ} {s : PoolState} {r : PickResult} {s' : PoolState}
    {a : Account} (h : lockStep now s = some (r, s')) (ha : r.account = some a) :
    a.isRateLimited = false ∧ a.isInvalid = false := by
  unfold lockStep at h
  by_cases hl : lockApplies now s
  · rw [if_pos hl] at h
    cases hfind : s.accounts.findIdx? (fun x => x.email == (s.lastUsedAccount.getD "")) with
    | none => rw [hfind] at h; simp at h
    | some i =>
      rw [hfind] at h
      simp only at h
      cases hget : s.accounts.get? i with
      | none => rw [hget] at h; simp at h
      | some la =>
        rw [hget] at h
        simp only at h
        by_cases hav : availableB la
        · rw [if_pos hav] at h
          simp only [Option.some.injEq] at h
          obtain ⟨hr, -⟩ := Prod.mk.injEq .. ▸ h
          rw [← hr] at ha
          simp only [Option.some.injEq] at ha
          have : availableB a = true := by
            rw [← ha, avail_lastUsed]
            exact hav
          unfold availableB at this
          simp only [Bool.and_eq_true, Bool.not_eq_true'] at this
          exact this
        · rw [if_neg hav] at h
          by_cases hrl : la.isRateLimited &&
              (match la.rateLimitResetTime with | some t => t != 0 | none => false)
          · rw [if_pos hrl] at h
            by_cases hw : 0 < la.rateLimitResetTime.getD 0 - now ∧
                la.rateLimitResetTime.getD 0 - now ≤ SHORT_WAIT_THRESHOLD_MS
            · rw [if_pos hw] at h
              simp only [Option.some.injEq] at h
              obtain ⟨hr, -⟩ := Prod.mk.injEq .. ▸ h
              rw [← hr] at ha
              simp at ha
            · rw [if_neg hw] at h
              simp at h
          · rw [if_neg hrl] at h
            simp at h
  · rw [if_neg hl] at h
    simp at h

theorem switch_some_avail {D now : ℤ} {s : PoolState} {a : Account}
    (h : (switchViaPickNext D now s).1.account = some a) :
    a.isRateLimited = false ∧ a.isInvalid = false := by
  simp only [switchViaPickNext] at h
  cases hp : (pickNext D now s).1 with
  | none => rw [hp] at h; simp at h
  | some b =>
    rw [hp] at h
    simp only [Option.some.injEq] at h
    rw [← h]
    exact pickNext_some_avail hp

/-- C1: every account returned by `pickStickyAccount` — from the affinity
lock, the sticky current account, or the `pickNext` fallback — is neither
rate-limited nor invalid. -/
theorem pickStickyAccount_available (D now : ℤ) (s : PoolState) (a : Account)
    (h : (pickStickyAccount D now s).1.account = some a) :
    a.isRateLimited = false ∧ a.isInvalid = false := by
  unfold pickStickyAccount at h
  cases hls : lockStep now s with
  | some r =>
    rw [hls] at h
    obtain ⟨r1, r2⟩ := r
    exact lockStep_some_avail hls h
  | none =>
    rw [hls] at h
    simp only at h
    cases hst : (getCurrentStickyAccount D now s).1 with
    | some b =>
      rw [hst] at h
      simp only [Option.some.injEq] at h
      rw [← h]
      exact gcs_some_avail hst
    | none =>
      rw [hst] at h
      simp only at h
      by_cases hsw : ((shouldWaitForCurrentAccount now (getCurrentStickyAccount D now s).2).1).shouldSwitch
      · rw [if_pos hsw] at h
        exact switch_some_avail h
      · rw [if_neg hsw] at h
        by_cases hwt : ((shouldWaitForCurrentAccount now (getCurrentStickyAccount D now s).2).1).shouldWait
        · rw [if_pos hwt] at h
          simp at h
        · rw [if_neg hwt] at h
          exact switch_some_avail h

theorem lockStep_none {now : ℤ} {s : PoolState} (h : lockApplies now s = false) :
    lockStep now s = none := by
  unfold lockStep
  rw [if_neg (by simp [h])]

theorem gcs_blocked {D now : ℤ} {s : PoolState} {cur : Account} {r : ℤ}
    (hi0 : 0 ≤ s.currentIndex) (hilen : s.currentIndex < (s.accounts.length : ℤ))
    (hget : s.accounts.get? s.currentIndex.toNat = some cur)
    (hrl : cur.isRateLimited = true) (hr : cur.rateLimitResetTime = some r) (hfut : now < r) :
    getCurrentStickyAccount D now s = (none, clearExpiredLimits D now s) := by
  obtain ⟨cur', hget', hrl', hr', hinv', hem'⟩ := clearEx_keepCurrent (D := D)
    hget hrl hr hfut
  have hlen : (clearExpiredLimits D now s).accounts.length = s.accounts.length :=
    clearEx_length D now s
  have hidx : (clearExpiredLimits D now s).currentIndex = s.currentIndex :=
    clearEx_currentIndex D now s
  have hlen0 : ¬((clearExpiredLimits D now s).accounts.length = 0) := by
    rw [hlen]; omega
  have hclamp : ¬(((clearExpiredLimits D now s).accounts.length : ℤ)
      ≤ (clearExpiredLimits D now s).currentIndex) := by
    rw [hlen, hidx]; omega
  have hga : getAt (clearExpiredLimits D now s).accounts (clearExpiredLimits D now s).currentIndex
      = some cur' := by
    unfold getAt
    rw [if_neg (by rw [hidx]; omega), hidx]
    exact hget'
  have hnav : availableB cur' = false := by
    unfold availableB
    rw [hrl']
    rfl
  unfold getCurrentStickyAccount
  rw [if_neg hlen0]
  simp only [if_neg hclamp, hga, hnav]
  rfl

theorem shouldWait_noWait {now : ℤ} {t : PoolState} {cur : Account} {r : ℤ}
    (hnow : 0 ≤ now)
    (hi0 : 0 ≤ t.currentIndex) (hilen : t.currentIndex < (t.accounts.length : ℤ))
    (hget : t.accounts.get? t.currentIndex.toNat = some cur)
    (hrl : cur.isRateLimited = true) (hr : cur.rateLimitResetTime = some r)
    (hshort : SHORT_WAIT_THRESHOLD_MS < r - now) (hmax : r - now ≤ MAX_WAIT_BEFORE_ERROR_MS)
    (havail : 0 < t.accounts.countP availableB) :
    ∃ wi : WaitInfo, shouldWaitForCurrentAccount now t = (wi, t) ∧ wi.shouldWait = false := by
  have hS : SHORT_WAIT_THRESHOLD_MS = 10000 := rfl
  have hM : MAX_WAIT_BEFORE_ERROR_MS = 60000 := rfl
  have hlen0 : ¬(t.accounts.length = 0) := by omega
  have hclamp : ¬((t.accounts.length : ℤ) ≤ t.currentIndex) := by omega
  have hga : getAt t.accounts t.currentIndex = some cur := by
    unfold getAt
    rw [if_neg (by omega)]
    exact hget
  have hr0 : r ≠ 0 := by omega
  unfold shouldWaitForCurrentAccount
  rw [if_neg hlen0]
  simp only [if_neg hclamp, hga]
  by_cases hinv : cur.isInvalid
  · rw [if_pos hinv]
    exact ⟨⟨false, 0, none, false⟩, rfl, rfl⟩
  · rw [if_neg hinv]
    have hcond : (cur.isRateLimited &&
        (match cur.rateLimitResetTime with | some t => t != 0 | none => false)) = true := by
      rw [hrl, hr]
      simp [hr0]
    rw [if_pos hcond]
    have hwq : cur.rateLimitResetTime.getD 0 - now = r - now := by rw [hr]; rfl
    rw [hwq]
    rw [if_neg (by omega : ¬(r - now ≤ 0))]
    rw [if_neg (by omega : ¬(r - now ≤ SHORT_WAIT_THRESHOLD_MS))]
    rw [if_pos (by omega : r - now ≤ MAX_WAIT_BEFORE_ERROR_MS)]
    have hflt : 0 < (t.accounts.filter availableB).length := by
      rw [← List.countP_eq_length_filter]
      exact havail
    rw [if_pos hflt]
    exact ⟨⟨false, r - now, some cur, true⟩, rfl, rfl⟩

theorem switch_spec (D now : ℤ) (t : PoolState)
    (h : 0 < (clearExpiredLimits D now t).accounts.countP availableB) :
    ∃ i a0,
      (clearExpiredLimits D now t).accounts.get? i = some a0 ∧ availableB a0 = true ∧
      i < (clearExpiredLimits D now t).accounts.length ∧
      switchViaPickNext D now t =
        (⟨some { a0 with lastUsed := some now }, 0⟩,
         { clearExpiredLimits D now t with
             accounts := (clearExpiredLimits D now t).accounts.set i { a0 with lastUsed := some now },
             currentIndex := (i : ℤ),
             lastUsedAccount := some a0.email,
             lastUsedTime := some now }) := by
  obtain ⟨i, a0, hget, hav, hlt, heq⟩ := pickNext_spec D now t h
  refine ⟨i, a0, hget, hav, hlt, ?_⟩
  simp only [switchViaPickNext, heq]

theorem emails_ne {l : List Account} {i j : ℕ} {x y : Account}
    (hnd : (l.map (fun a => a.email)).Nodup)
    (hx : l.get? i = some x) (hy : l.get? j = some y) (hij : i ≠ j) : x.email ≠ y.email := by
  intro he
  have hmx : (l.map (fun a => a.email)).get? i = some x.email := by
    rw [List.get?_map, hx]; rfl
  have hmy : (l.map (fun a => a.email)).get? j = some y.email := by
    rw [List.get?_map, hy]; rfl
  have hilt : i < (l.map (fun a => a.email)).length := by
    rw [List.length_map]
    exact (List.get?_eq_some.1 hx).1
  exact hij (List.get?_inj hilt hnd (by rw [hmx, hmy, he]))

/-- C2: with the affinity lock inactive, the account at `#currentIndex`
rate-limited for `w` with `SHORT_WAIT_THRESHOLD < w ≤ MAX_WAIT_BEFORE_ERROR`,
and at least two available accounts, `pickStickyAccount` returns a
different available account (no wait), and both `#currentIndex` and the
affinity anchor move to it. -/
theorem pickStickyAccount_switches (D now : ℤ) (s : PoolState) (cur : Account) (r : ℤ)
    (hnow : 0 ≤ now)
    (hi0 : 0 ≤ s.currentIndex) (hilen : s.currentIndex < (s.accounts.length : ℤ))
    (hcur : s.accounts.get? s.currentIndex.toNat = some cur)
    (hrl : cur.isRateLimited = true) (hrt : cur.rateLimitResetTime = some r)
    (hshort : SHORT_WAIT_THRESHOLD_MS < r - now) (hmax : r - now ≤ MAX_WAIT_BEFORE_ERROR_MS)
    (havail : 2 ≤ s.accounts.countP availableB)
    (hlock : lockApplies now s = false)
    (hnodup : (s.accounts.map (fun a => a.email)).Nodup) :
    ∃ a s', pickStickyAccount D now s = (⟨some a, 0⟩, s') ∧
      availableB a = true ∧ a.email ≠ cur.email ∧
      s'.currentIndex ≠ s.currentIndex ∧ 0 ≤ s'.currentIndex ∧
      s'.currentIndex < (s'.accounts.length : ℤ) ∧
      s'.accounts.get? s'.currentIndex.toNat = some a ∧
      s'.lastUsedAccount = some a.email ∧ s'.lastUsedTime = some now := by
  have hS : SHORT_WAIT_THRESHOLD_MS = 10000 := rfl
  have hfut : now < r := by omega
  obtain ⟨cur1, hget1, hrl1, hr1, hinv1, hem1⟩ := clearEx_keepCurrent (D := D) hcur hrl hrt hfut
  have hlen1 : (clearExpiredLimits D now s).accounts.length = s.accounts.length :=
    clearEx_length D now s
  have hidx1 : (clearExpiredLimits D now s).currentIndex = s.currentIndex :=
    clearEx_currentIndex D now s
  have hi0' : 0 ≤ (clearExpiredLimits D now s).currentIndex := by rw [hidx1]; exact hi0
  have hilen' : (clearExpiredLimits D now s).currentIndex
      < ((clearExpiredLimits D now s).accounts.length : ℤ) := by
    rw [hidx1, hlen1]; exact hilen
  have hget1' : (clearExpiredLimits D now s).accounts.get?
      (clearExpiredLimits D now s).currentIndex.toNat = some cur1 := by
    rw [hidx1]; exact hget1
  have hav1 : 2 ≤ (clearExpiredLimits D now s).accounts.countP availableB :=
    le_trans havail (clearEx_countP_avail D now s)
  obtain ⟨wi, hwiEq, hwiW⟩ := shouldWait_noWait (t := clearExpiredLimits D now s)
    hnow hi0' hilen' hget1' hrl1 hr1 hshort hmax (by omega)
  have hPSA : pickStickyAccount D now s
      = switchViaPickNext D now (clearExpiredLimits D now s) := by
    unfold pickStickyAccount
    rw [lockStep_none hlock]
    simp only [gcs_blocked hi0 hilen hcur hrl hrt hfut, hwiEq]
    by_cases hsw : wi.shouldSwitch
    · rw [if_pos hsw]
    · rw [if_neg hsw, if_neg (by rw [hwiW]; simp)]
  have hpos2 : 0 < (clearExpiredLimits D now (clearExpiredLimits D now s)).accounts.countP
      availableB := by
    have := clearEx_countP_avail D now (clearExpiredLimits D now s)
    omega
  obtain ⟨i, a0, hget0, hav0, hlt0, hswEq⟩ := switch_spec D now (clearExpiredLimits D now s) hpos2
  obtain ⟨cur2, hget2, hrl2, hr2, hinv2, hem2⟩ :=
    clearEx_keepCurrent (D := D) (s := clearExpiredLimits D now s) hget1' hrl1 hr1 hfut
  have hget2' : (clearExpiredLimits D now (clearExpiredLimits D now s)).accounts.get?
      s.currentIndex.toNat = some cur2 := by
    rw [← hidx1]; exact hget2
  have hne : i ≠ s.currentIndex.toNat := by
    intro hEq
    rw [hEq, hget2'] at hget0
    have ha0 : a0 = cur2 := (Option.some.injEq .. ▸ hget0).symm
    rw [ha0] at hav0
    unfold availableB at hav0
    rw [hrl2] at hav0
    simp at hav0
  have hemail : a0.email ≠ cur.email := by
    have hnd2 : ((clearExpiredLimits D now (clearExpiredLimits D now s)).accounts.map
        (fun a => a.email)).Nodup := by
      rw [clearEx_emailMap, clearEx_emailMap]
      exact hnodup
    have h0 := emails_ne hnd2 hget0 hget2' hne
    rw [hem2, hem1] at h0
    exact h0
  refine ⟨{ a0 with lastUsed := some now }, _, hPSA.trans hswEq, ?_, ?_, ?_, ?_, ?_, ?_, ?_, ?_⟩
  · rw [avail_lastUsed]
    exact hav0
  · exact hemail
  · show (i : ℤ) ≠ s.currentIndex
    intro hEq
    apply hne
    have : ((i : ℤ)).toNat = s.currentIndex.toNat := by rw [hEq]
    simpa using this
  · show (0 : ℤ) ≤ (i : ℤ)
    exact Int.natCast_nonneg i
  · show (i : ℤ) < _
    rw [List.length_set]
    exact_mod_cast hlt0
  · show ((clearExpiredLimits D now (clearExpiredLimits D now s)).accounts.set i
      { a0 with lastUsed := some now }).get? ((i : ℤ)).toNat = some { a0 with lastUsed := some now }
    rw [Int.toNat_natCast, List.get?_set_eq, hget0]
    rfl
  · rfl
  · rfl

theorem clampScore_bounds (q : ℚ) : -100 ≤ clampScore q ∧ clampScore q ≤ 120 := by
  unfold clampScore jsRound
  constructor
  · have hv : (-100 : ℚ) ≤ max (-100) (min 120 q) := le_max_left _ _
    have h2 : ((-100 : ℤ) : ℚ) ≤ max (-100) (min 120 q) + 1/2 := by push_cast; linarith
    exact Int.le_floor.2 h2
  · have hv : max (-100) (min 120 q) ≤ 120 :=
      max_le (by norm_num) (min_le_left _ _)
    have h2 : max (-100) (min 120 q) + 1/2 < ((121 : ℤ) : ℚ) := by push_cast; linarith
    have := Int.floor_lt.2 h2
    omega

theorem computeHealthScore_eq_spec {D now : ℤ} (a : Account) (hD : 0 < D)
    (h : 0 ≤ remainingMsOf now a ∨ a.isRateLimited = false) :
    computeHealthScore D now a = specHealthScore D now a := by
  simp only [computeHealthScore, specHealthScore]
  by_cases hrl : a.isRateLimited
  · simp only [hrl, if_true]
    rcases h with h0 | hrlF
    · have hrem : (0 : ℚ) ≤ ((remainingMsOf now a : ℤ) : ℚ) := by exact_mod_cast h0
      have hDq : (0 : ℚ) < ((D : ℤ) : ℚ) := by exact_mod_cast hD
      have hmin0 : (0 : ℚ) ≤ min 1 (((remainingMsOf now a : ℤ) : ℚ) / ((D : ℤ) : ℚ)) :=
        le_min (by norm_num) (div_nonneg hrem hDq.le)
      have hle : max 0 (1 - min 1 (((remainingMsOf now a : ℤ) : ℚ) / ((D : ℤ) : ℚ))) ≤ 1 :=
        max_le (by norm_num) (by linarith)
      rw [min_eq_right hle]
    · rw [hrlF] at hrl
      exact absurd hrl (by simp)
  · simp [hrl]

/-- C3 (counterexample): on a rate-limited account whose recorded reset
time is already past, the code's cooldown factor
`max(0, 1 - min(1, remaining/D))` exceeds 1, so the computed score (120)
differs from the spec's both-sides-clamped formula (40). -/
theorem healthScore_claim_counterexample :
    computeHealthScore 60000 0 staleLimited = 120 ∧
    specHealthScore 60000 0 staleLimited = 40 ∧
    computeHealthScore 60000 0 staleLimited ≠ specHealthScore 60000 0 staleLimited := by
  refine ⟨?_, ?_, ?_⟩
  · norm_num [computeHealthScore, computeRatios, remainingMsOf, clampScore, jsRound,
      staleLimited, mkAccount]
  · norm_num [specHealthScore, computeRatios, remainingMsOf, clampScore, jsRound,
      staleLimited, mkAccount]
  · norm_num [computeHealthScore, specHealthScore, computeRatios, remainingMsOf, clampScore,
      jsRound, staleLimited, mkAccount]

/-- C3 (amended): the computed health score always lies in `[-100, 120]`,
and it equals the spec's clamped formula whenever the remaining cooldown
is nonnegative or the account is not rate-limited; the code clamps the
cooldown factor only from below, so the two differ only on a rate-limited
account whose recorded reset time is already in the past. -/
theorem healthScore_amended (D now : ℤ) (a : Account) (hD : 0 < D) :
    (-100 ≤ computeHealthScore D now a ∧ computeHealthScore D now a ≤ 120) ∧
    ((0 ≤ remainingMsOf now a ∨ a.isRateLimited = false) →
      computeHealthScore D now a = specHealthScore D now a) := by
  constructor
  · unfold computeHealthScore
    exact clampScore_bounds _
  · intro h
    exact computeHealthScore_eq_spec a hD h

/-- Witness for the amended C3 theorem at a concrete input. -/
theorem healthScore_amended_witness :
    (0 : ℤ) < 60000 ∧
    ((-100 ≤ computeHealthScore 60000 0 staleLimited ∧
        computeHealthScore 60000 0 staleLimited ≤ 120) ∧
      ((0 ≤ remainingMsOf 0 staleLimited ∨ staleLimited.isRateLimited = false) →
        computeHealthScore 60000 0 staleLimited = specHealthScore 60000 0 staleLimited)) :=
  ⟨by decide, healthScore_amended 60000 0 staleLimited (by decide)⟩

theorem updTop_le (l : List Account) : ∀ (v : ℤ),
    ∃ w, l.foldl updTop (some v) = some w ∧ v ≤ w := by
  induction l with
  | nil =>
    intro v
    exact ⟨v, rfl, le_refl v⟩
  | cons c cs ih =>
    intro v
    simp only [List.foldl_cons]
    by_cases hc : (decide (v < c.healthScore) && !c.isInvalid) = true
    · have hstep : updTop (some v) c = some c.healthScore := by
        simp only [updTop]
        rw [if_pos hc]
      rw [hstep]
      obtain ⟨w, hw, hcw⟩ := ih c.healthScore
      refine ⟨w, hw, ?_⟩
      simp only [Bool.and_eq_true, decide_eq_true_eq] at hc
      omega
    · have hstep : updTop (some v) c = some v := by
        simp only [updTop]
        rw [if_neg hc]
      rw [hstep]
      exact ih v

theorem top_ub (l : List Account) : ∀ (t : Option ℤ) (a : Account), a ∈ l →
    a.isInvalid = false → ∃ w, l.foldl updTop t = some w ∧ a.healthScore ≤ w := by
  induction l with
  | nil =>
    intro t a ha _
    simp at ha
  | cons c cs ih =>
    intro t a ha hinv
    simp only [List.foldl_cons]
    rcases List.mem_cons.1 ha with rfl | hmem
    · cases t with
      | none =>
        have hstep : updTop none a = some a.healthScore := by
          simp only [updTop, hinv]
          simp
        rw [hstep]
        exact updTop_le cs a.healthScore
      | some v =>
        by_cases hlt : v < a.healthScore
        · have hstep : updTop (some v) a = some a.healthScore := by
            simp only [updTop, hinv]
            simp [hlt]
          rw [hstep]
          exact updTop_le cs a.healthScore
        · have hstep : updTop (some v) a = some v := by
            simp only [updTop]
            simp [hlt]
          rw [hstep]
          obtain ⟨w, hw, hvw⟩ := updTop_le cs v
          exact ⟨w, hw, by omega⟩
    · exact ih (updTop t c) a hmem hinv

/-- C4 (counterexample): two non-invalid accounts tied at the top score
50 are *both* marked recommended by `#updateRecommendations`, so
`recommended` is not limited to a single account. -/
theorem recommended_claim_counterexample :
    (updateRecommendations
        [mkAccount "a@example.com" 50, mkAccount "b@example.com" 50]).countP
      (fun a => a.recommended) = 2 ∧
    ¬((updateRecommendations
        [mkAccount "a@example.com" 50, mkAccount "b@example.com" 50]).countP
      (fun a => a.recommended) ≤ 1) := by
  constructor
  · decide
  · decide

/-- C4 (amended): every account marked recommended by
`#updateRecommendations` is non-invalid, has a strictly positive score,
and its score is maximal among the non-invalid accounts of the pool — but
on a tie every top-scoring non-invalid account is marked, not just one. -/
theorem recommended_amended (l : List Account) (a' : Account)
    (hmem : a' ∈ updateRecommendations l) (hrec : a'.recommended = true) :
    a'.isInvalid = false ∧ 0 < a'.healthScore ∧
      ∀ b' ∈ updateRecommendations l, b'.isInvalid = false →
        b'.healthScore ≤ a'.healthScore := by
  obtain ⟨a, hal, ha'⟩ := List.mem_map.1 hmem
  cases htop : topScore l with
  | none =>
    rw [← ha'] at hrec
    unfold recUpd at hrec
    rw [htop] at hrec
    simp at hrec
  | some v =>
    rw [← ha'] at hrec
    unfold recUpd at hrec
    rw [htop] at hrec
    simp only [Bool.and_eq_true, Bool.not_eq_true', beq_iff_eq, decide_eq_true_eq] at hrec
    obtain ⟨hinv, hsc, hv0⟩ := hrec
    have hfields : a'.isInvalid = a.isInvalid ∧ a'.healthScore = a.healthScore := by
      rw [← ha']
      exact ⟨recUpd_isInvalid _ _, recUpd_healthScore _ _⟩
    refine ⟨hfields.1.trans hinv, ?_, ?_⟩
    · rw [hfields.2, hsc]
      exact hv0
    · intro b' hb' hbinv
      obtain ⟨b, hbl, hb⟩ := List.mem_map.1 hb'
      have hbfields : b'.isInvalid = b.isInvalid ∧ b'.healthScore = b.healthScore := by
        rw [← hb]
        exact ⟨recUpd_isInvalid _ _, recUpd_healthScore _ _⟩
      obtain ⟨w, hw, hbw⟩ := top_ub l none b hbl (hbfields.1.symm.trans hbinv)
      have hwv : w = v := by
        have : topScore l = some w := hw
        rw [htop] at this
        exact (Option.some.injEq .. ▸ this).symm
      rw [hbfields.2, hfields.2, hsc]
      omega

/-- Witness for the amended C4 theorem at a concrete input. -/
theorem recommended_amended_witness :
    ({ mkAccount "a@example.com" 50 with recommended := true }
        ∈ updateRecommendations [mkAccount "a@example.com" 50, mkAccount "b@example.com" 50] ∧
      ({ mkAccount "a@example.com" 50 with recommended := true }).recommended = true) ∧
    (({ mkAccount "a@example.com" 50 with recommended := true }).isInvalid = false ∧
      0 < ({ mkAccount "a@example.com" 50 with recommended := true }).healthScore ∧
      ∀ b' ∈ updateRecommendations [mkAccount "a@example.com" 50, mkAccount "b@example.com" 50],
        b'.isInvalid = false →
          b'.healthScore ≤ ({ mkAccount "a@example.com" 50 with recommended := true }).healthScore) :=
  ⟨⟨by decide, by decide⟩,
    recommended_amended _ _ (by decide) (by decide)⟩

theorem updateRecs_set_score (D now : ℤ) {l : List Account} {i : ℕ} (a2 : Account)
    (hi : i < l.length) (hsc : a2.healthScore = computeHealthScore D now a2) :
    ∃ a', (updateRecommendations (l.set i a2)).get? i = some a' ∧
      a'.healthScore = computeHealthScore D now a' := by
  refine ⟨recUpd (topScore (l.set i a2)) a2, ?_, ?_⟩
  · unfold updateRecommendations
    rw [List.get?_map, List.get?_set_eq, List.get?_eq_get hi]
    rfl
  · exact hsc

theorem findIdx?_some_get {p : Account → Bool} :
    ∀ {l : List Account} {i j : ℕ}, List.findIdx? p l j = some i →
      j ≤ i ∧ ∃ a, l.get? (i - j) = some a ∧ p a = true := by
  intro l
  induction l with
  | nil =>
    intro i j h
    simp [List.findIdx?] at h
  | cons c cs ih =>
    intro i j h
    rw [List.findIdx?_cons] at h
    by_cases hc : p c = true
    · rw [if_pos hc] at h
      have hji : j = i := Option.some.injEq .. ▸ h
      subst hji
      exact ⟨le_refl _, c, by simp, hc⟩
    · rw [if_neg hc] at h
      obtain ⟨hji, a, hget, hpa⟩ := ih h
      refine ⟨by omega, a, ?_, hpa⟩
      have hidx : i - j = (i - (j + 1)) + 1 := by omega
      rw [hidx]
      simpa using hget

theorem chs_recommended (D now : ℤ) (t : Option ℤ) (a : Account) :
    computeHealthScore D now (recUpd t a) = computeHealthScore D now a := rfl

theorem chs_healthScore (D now h : ℤ) (a : Account) :
    computeHealthScore D now { a with healthScore := h } = computeHealthScore D now a := rfl

/-- C5 (counterexample): `resetAllRateLimits` clears the flags of a
rate-limited account but does not recompute its stored `healthScore`
(the score stays 30, while the pure health function of the cleared record
gives 90). -/
theorem resetAllRateLimits_score_counterexample :
    (resetAllRateLimits limitedPool).accounts.get? 0
        = some { mkAccount "a@example.com" 30 with recommended := true } ∧
    ({ mkAccount "a@example.com" 30 with recommended := true } : Account).healthScore = 30 ∧
    computeHealthScore 60000 0 { mkAccount "a@example.com" 30 with recommended := true } = 90 ∧
    ({ mkAccount "a@example.com" 30 with recommended := true } : Account).healthScore
      ≠ computeHealthScore 60000 0 { mkAccount "a@example.com" 30 with recommended := true } := by
  refine ⟨by decide, by decide, ?_, ?_⟩
  · norm_num [computeHealthScore, computeRatios, remainingMsOf, clampScore, jsRound, mkAccount]
  · norm_num [computeHealthScore, computeRatios, remainingMsOf, clampScore, jsRound, mkAccount]

/-- C5 (amended): `markRateLimited`, `markInvalid`, `recordSuccess` and
`recordFailure` leave the affected account's stored `healthScore` equal to
the pure health function of its post-change state, and
`resetAllRateLimits` clears `isRateLimited`/`rateLimitResetTime` on every
account — but without recomputing the stored scores. -/
theorem healthScore_recomputed_amended (D now : ℤ) (e reason : String)
    (resetMs : Option ℤ) (inv : Option String) (rlms : Option ℤ) (s : PoolState) (i : ℕ)
    (hfind : s.accounts.findIdx? (fun a => a.email == e) = some i) :
    (∃ a', (markRateLimited D now e resetMs s).accounts.get? i = some a' ∧
        a'.healthScore = computeHealthScore D now a') ∧
    (∃ a', (markInvalid D now e reason s).accounts.get? i = some a' ∧
        a'.healthScore = computeHealthScore D now a') ∧
    (∃ a', (recordSuccess D now e s).accounts.get? i = some a' ∧
        a'.healthScore = computeHealthScore D now a') ∧
    (∃ a', (recordFailure D now e inv rlms s).accounts.get? i = some a' ∧
        a'.healthScore = computeHealthScore D now a') ∧
    (∀ b' ∈ (resetAllRateLimits s).accounts,
        b'.isRateLimited = false ∧ b'.rateLimitResetTime = none) := by
  obtain ⟨-, a, hget0, -⟩ := findIdx?_some_get hfind
  simp only [Nat.sub_zero] at hget0
  have hilen : i < s.accounts.length := (List.get?_eq_some.1 hget0).1
  refine ⟨?_, ?_, ?_, ?_, ?_⟩
  · unfold markRateLimited
    simp only [hfind, hget0]
    exact updateRecs_set_score D now _ hilen rfl
  · unfold markInvalid
    simp only [hfind, hget0]
    exact updateRecs_set_score D now _ hilen rfl
  · unfold recordSuccess
    simp only [hfind, hget0]
    exact updateRecs_set_score D now _ hilen rfl
  · unfold recordFailure
    simp only [hfind, hget0]
    exact updateRecs_set_score D now _ hilen rfl
  · intro b' hb'
    unfold resetAllRateLimits updateRecommendations at hb'
    simp only [List.mem_map] at hb'
    obtain ⟨b1, ⟨b0, -, hb1⟩, hb2⟩ := hb'
    rw [← hb2, recUpd_isRateLimited, recUpd_reset, ← hb1]
    exact ⟨rfl, rfl⟩

/-- Witness for the amended C5 theorem at a concrete input. -/
theorem healthScore_recomputed_amended_witness :
    onePool.accounts.findIdx? (fun a => a.email == "a@example.com") = some 0 ∧
    ((∃ a', (markRateLimited 60000 0 "a@example.com" none onePool).accounts.get? 0 = some a' ∧
        a'.healthScore = computeHealthScore 60000 0 a') ∧
    (∃ a', (markInvalid 60000 0 "a@example.com" "expired" onePool).accounts.get? 0 = some a' ∧
        a'.healthScore = computeHealthScore 60000 0 a') ∧
    (∃ a', (recordSuccess 60000 0 "a@example.com" onePool).accounts.get? 0 = some a' ∧
        a'.healthScore = computeHealthScore 60000 0 a') ∧
    (∃ a', (recordFailure 60000 0 "a@example.com" none none onePool).accounts.get? 0 = some a' ∧
        a'.healthScore = computeHealthScore 60000 0 a') ∧
    (∀ b' ∈ (resetAllRateLimits onePool).accounts,
        b'.isRateLimited = false ∧ b'.rateLimitResetTime = none)) :=
  ⟨by decide,
    healthScore_recomputed_amended 60000 0 "a@example.com" "expired" none none none onePool 0
      (by decide)⟩

/-- Witness for C1 at a concrete input. -/
theorem pickStickyAccount_available_witness :
    (pickStickyAccount 60000 1000 onePool).1.account
        = some { mkAccount "a@example.com" 30 with lastUsed := some 1000 } ∧
    ({ mkAccount "a@example.com" 30 with lastUsed := some 1000 } : Account).isRateLimited = false ∧
    ({ mkAccount "a@example.com" 30 with lastUsed := some 1000 } : Account).isInvalid = false :=
  ⟨by decide,
    (pickStickyAccount_available 60000 1000 onePool _ (by decide)).1,
    (pickStickyAccount_available 60000 1000 onePool _ (by decide)).2⟩

/-- Witness for C2 at a concrete input. -/
theorem pickStickyAccount_switches_witness :
    switchPool.accounts.get? switchPool.currentIndex.toNat
        = some { mkAccount "a@example.com" 30 with
            isRateLimited := true, rateLimitResetTime := some 30000 } ∧
    2 ≤ switchPool.accounts.countP availableB ∧
    lockApplies 0 switchPool = false ∧
    (∃ a s', pickStickyAccount 60000 0 switchPool = (⟨some a, 0⟩, s') ∧
      availableB a = true ∧
      a.email ≠ ({ mkAccount "a@example.com" 30 with
          isRateLimited := true, rateLimitResetTime := some 30000 } : Account).email ∧
      s'.currentIndex ≠ switchPool.currentIndex ∧ 0 ≤ s'.currentIndex ∧
      s'.currentIndex < (s'.accounts.length : ℤ) ∧
      s'.accounts.get? s'.currentIndex.toNat = some a ∧
      s'.lastUsedAccount = some a.email ∧ s'.lastUsedTime = some 0) :=
  ⟨by decide, by decide, by decide,
    pickStickyAccount_switches 60000 0 switchPool _ 30000 (by decide) (by decide) (by decide)
      (by decide) (by decide) (by decide) (by decide) (by decide) (by decide) (by decide)
      (by decide)⟩

/-- C6: `parseError` on upstream rate-limit errors: a parseable
`"quota will reset after 1h2m3s"` yields `Retry-After` 3723 seconds, a
bare `"45s"` yields 45, an unparseable message yields 60, and when all
accounts are rate-limited it yields the ceiling in seconds of the pool's
soonest-available estimate. -/
theorem parseError_retryAfter :
    parseErrorModel "429 RESOURCE_EXHAUSTED: quota will reset after 1h2m3s" false 0
        = (.overloadedError, 503, some 3723) ∧
    parseErrorModel "429 rate limit exceeded, try again after 45s" false 0
        = (.overloadedError, 503, some 45) ∧
    parseErrorModel "429 too many requests" false 0
        = (.overloadedError, 503, some 60) ∧
    parseErrorModel "429 too many requests" true 120500
        = (.overloadedError, 503, some 121) :=
  ⟨by decide, by decide, by decide, by decide⟩

/-- C7: the background-task downgrade is an identity on any request that
declares a tool or the extended-thinking flag, and the effective model
differs from the declared one only by becoming
`FREE_MODEL_FOR_BACKGROUND`, and only when the request matches a
background pattern, has no tools, no thinking flag, and the downgrade
model is supported. -/
theorem downgrade_noop (freeModel : String) (freeSupported : Bool) (patterns : List String)
    (m : String) (tools : Option (List String)) (thinking : Bool)
    (messages : List MsgContent) (system : SysVal) (hm : m ≠ "") :
    ((∃ ts, tools = some ts ∧ ts ≠ []) ∨ thinking = true →
      effectiveModel freeModel freeSupported patterns (some m) tools thinking messages system
        = m) ∧
    (effectiveModel freeModel freeSupported patterns (some m) tools thinking messages system ≠ m →
      effectiveModel freeModel freeSupported patterns (some m) tools thinking messages system
          = freeModel ∧
        isBackgroundTask patterns messages system = true ∧
        (tools = none ∨ tools = some []) ∧ thinking = false ∧ freeSupported = true) := by
  have hem : jsOrS (some m) "claude-3-5-sonnet-20241022" = m := by
    simp [jsOrS, hm]
  unfold effectiveModel
  rw [hem]
  constructor
  · intro h
    have hcd : canDowngrade tools thinking freeSupported = false := by
      unfold canDowngrade
      rcases h with ⟨ts, hts, htsne⟩ | hth
      · rw [hts]
        cases ts with
        | nil => exact absurd rfl htsne
        | cons x xs => simp
      · rw [hth]
        simp
    rw [hcd]
    simp
  · intro hne
    by_cases hif : (canDowngrade tools thinking freeSupported
        && isBackgroundTask patterns messages system) = true
    · rw [if_pos hif]
      simp only [Bool.and_eq_true] at hif
      obtain ⟨hcd, hbg⟩ := hif
      unfold canDowngrade at hcd
      simp only [Bool.and_eq_true, Bool.not_eq_true'] at hcd
      obtain ⟨⟨hts, hth⟩, hsup⟩ := hcd
      refine ⟨rfl, hbg, ?_, hth, hsup⟩
      cases tools with
      | none => exact Or.inl rfl
      | some ts =>
        cases ts with
        | nil => exact Or.inr rfl
        | cons x xs => simp at hts
    · rw [if_neg hif] at hne
      exact absurd rfl hne

/-- Witness for C7 at a concrete input. -/
theorem downgrade_noop_witness :
    ("claude-opus-4-5-thinking" : String) ≠ "" ∧
    (((∃ ts, (some ["web_search"] : Option (List String)) = some ts ∧ ts ≠ []) ∨ false = true →
      effectiveModel "gemini-2.0-flash" true ["summarize conversation"]
        (some "claude-opus-4-5-thinking") (some ["web_search"]) false [] .absent
        = "claude-opus-4-5-thinking") ∧
    (effectiveModel "gemini-2.0-flash" true ["summarize conversation"]
        (some "claude-opus-4-5-thinking") (some ["web_search"]) false [] .absent
        ≠ "claude-opus-4-5-thinking" →
      effectiveModel "gemini-2.0-flash" true ["summarize conversation"]
          (some "claude-opus-4-5-thinking") (some ["web_search"]) false [] .absent
          = "gemini-2.0-flash" ∧
        isBackgroundTask ["summarize conversation"] [] .absent = true ∧
        ((some ["web_search"] : Option (List String)) = none ∨
          (some ["web_search"] : Option (List String)) = some []) ∧
        false = false ∧ true = true)) :=
  ⟨by decide,
    downgrade_noop "gemini-2.0-flash" true ["summarize conversation"]
      "claude-opus-4-5-thinking" (some ["web_search"]) false [] .absent (by decide)⟩

/-- C8 (counterexample): a persisted `activeIndex` of -3 on a one-account
pool survives the clamp of `initialize` unchanged, so `currentIndex` is
not a valid index (`0 ≤ currentIndex` fails). -/
theorem initCurrentIndex_counterexample :
    initCurrentIndex (some (-3)) 1 = -3 ∧ ¬(0 ≤ initCurrentIndex (some (-3)) 1) :=
  ⟨by decide, by decide⟩

/-- C8 (amended): `initialize` resets only an `activeIndex ≥` the number
of loaded accounts to 0, so on a non-empty pool `currentIndex < length`
always holds after initialization, and `0 ≤ currentIndex` holds whenever
the persisted index (after the `|| 0` default) is nonnegative — a
negative persisted `activeIndex` is kept as-is. -/
theorem initCurrentIndex_amended (activeIndex : Option ℤ) (n : ℕ)
    (hn : 0 < n) (hnonneg : 0 ≤ jsOrI activeIndex 0) :
    0 ≤ initCurrentIndex activeIndex n ∧ initCurrentIndex activeIndex n < (n : ℤ) := by
  unfold initCurrentIndex
  by_cases hge : (n : ℤ) ≤ jsOrI activeIndex 0
  · rw [if_pos hge]
    exact ⟨le_refl 0, by exact_mod_cast hn⟩
  · rw [if_neg hge]
    exact ⟨hnonneg, by omega⟩

/-- Witness for the amended C8 theorem at a concrete input. -/
theorem initCurrentIndex_amended_witness :
    0 < 10 ∧ (0 : ℤ) ≤ jsOrI (some 5) 0 ∧
    (0 ≤ initCurrentIndex (some 5) 10 ∧ initCurrentIndex (some 5) 10 < (10 : ℤ)) :=
  ⟨by decide, by decide, initCurrentIndex_amended (some 5) 10 (by decide) (by decide)⟩

/-- C9: marking or recording against an email that matches no account in
the pool is a complete no-op: the pool state (accounts, `currentIndex`,
affinity anchor and settings) is returned unchanged by `markRateLimited`,
`markInvalid`, `recordSuccess` and `recordFailure`. -/
theorem unknownEmail_noop (D now : ℤ) (e reason : String) (resetMs : Option ℤ)
    (inv : Option String) (rlms : Option ℤ) (s : PoolState)
    (h : ∀ a ∈ s.accounts, a.email ≠ e) :
    markRateLimited D now e resetMs s = s ∧ markInvalid D now e reason s = s ∧
    recordSuccess D now e s = s ∧ recordFailure D now e inv rlms s = s := by
  have hfind : s.accounts.findIdx? (fun a => a.email == e) = none := by
    rw [List.findIdx?_eq_none_iff]
    intro x hx
    simp [h x hx]
  refine ⟨?_, ?_, ?_, ?_⟩
  · unfold markRateLimited
    rw [hfind]
  · unfold markInvalid
    rw [hfind]
  · unfold recordSuccess
    rw [hfind]
  · unfold recordFailure
    rw [hfind]

/-- Witness for C9 at a concrete input. -/
theorem unknownEmail_noop_witness :
    (∀ a ∈ onePool.accounts, a.email ≠ "missing@example.com") ∧
    (markRateLimited 60000 0 "missing@example.com" none onePool = onePool ∧
      markInvalid 60000 0 "missing@example.com" "expired" onePool = onePool ∧
      recordSuccess 60000 0 "missing@example.com" onePool = onePool ∧
      recordFailure 60000 0 "missing@example.com" none none onePool = onePool) :=
  ⟨by decide,
    unknownEmail_noop 60000 0 "missing@example.com" "expired" none none none onePool
      (by decide)⟩

end BirdBridge
